import Mathlib

/-!
Shallow embedding of the sandboxed Python terminal (src/main.py) and proofs
about its path-resolution sandbox, tokenizer, dispatcher and command handlers.

Modelling conventions:
* A POSIX absolute path is its list of components (`/a/b` is `["a", "b"]`,
  the filesystem root `/` is `[]`).  `Path.resolve()` is modelled lexically
  (collapsing `.` and `..`); the model filesystem has no symlinks.
* `pathlib.Path.name` of a canonicalized path is its last component (a single
  component, never containing `/`), or the empty string for `/`; `root / name`
  appends that single component (nothing when the name is empty).
* Printed output is the list of chunks written by `print` calls: `print(x)`
  contributes `x ++ "\n"`, `print(x, end='')` contributes `x`.
* Host-delegating commands (`ps`, `sysmon`, `df`, `history`, `help` text is
  kept) do not touch session state; their host-produced output is abstracted.
-/

deriving instance DecidableEq for Except

namespace PyTerm

/-- A path component is good when it is none of `""`, `"."`, `".."`
(the forms `Path.resolve()` eliminates). -/
def GoodComp (c : String) : Prop := c ≠ "" ∧ c ≠ "." ∧ c ≠ ".."

instance : DecidablePred GoodComp := fun c => by unfold GoodComp; infer_instance

/-- A canonicalized absolute path (as produced by `Path.resolve()`):
every component is good. -/
def Canonical (p : List String) : Prop := ∀ c ∈ p, GoodComp c

instance (p : List String) : Decidable (Canonical p) := by
  unfold Canonical; infer_instance

/-- Split a character stream on `/`, dropping empty segments; `cur` is the
segment under construction. -/
def splitPathAux : List Char → String → List String
  | [], cur => if cur = "" then [] else [cur]
  | c :: rest, cur =>
    if c = '/' then (if cur = "" then splitPathAux rest "" else cur :: splitPathAux rest "")
    else splitPathAux rest (cur.push c)

/-- Components of a user-supplied path string: split on `/`, dropping empty
segments (as `pathlib` does for repeated and trailing slashes). -/
def splitPath (s : String) : List String := splitPathAux s.toList ""

/-- `Path.is_absolute()` on POSIX: the string starts with `/`. -/
def isAbsolute (s : String) : Bool :=
  match s.toList with
  | [] => false
  | c :: _ => c == '/'

/-- One step of lexical canonicalization, processing components left to right
over an accumulated absolute path (`..` at `/` stays at `/`, as in POSIX). -/
def normAux : List String → List String → List String
  | acc, [] => acc
  | acc, c :: rest =>
    if c = "." then normAux acc rest
    else if c = ".." then normAux acc.dropLast rest
    else normAux (acc ++ [c]) rest

/-- Lexical `Path.resolve()`: collapse `.` and `..` in an absolute
component list. -/
def normalize (l : List String) : List String := normAux [] l

/-- Render a component list as the POSIX string `str(path)`. -/
def pathStr (p : List String) : String := "/" ++ String.intercalate "/" p

/-- The model filesystem: the set of existing directories and of existing
regular files with their text contents (no symlinks). -/
structure FS where
  dirs : List (List String)
  files : List (List String × String)
deriving DecidableEq

/-- `Path.is_dir()`. -/
def FS.isDir (fs : FS) (p : List String) : Bool := fs.dirs.contains p

/-- `Path.is_file()`. -/
def FS.isFile (fs : FS) (p : List String) : Bool := fs.files.any (fun e => e.1 == p)

/-- `Path.exists()`. -/
def FS.pathEx (fs : FS) (p : List String) : Bool := fs.isDir p || fs.isFile p

/-- Contents of a regular file (empty for a non-file). -/
def fileContent (fs : FS) (p : List String) : String :=
  ((fs.files.find? (fun e => e.1 == p)).map Prod.snd).getD ""

/-- The session state of `Terminal`: sandbox root, current directory,
and the (modelled) filesystem it acts on. -/
structure State where
  root : List String
  cwd : List String
  fs : FS
deriving DecidableEq

/-- The canonicalized form of a non-empty user path string, before the
sandbox check: `(self.cwd / p).resolve()` for a relative string,
`p.resolve()` for an absolute one (src/main.py lines 97-101). -/
def canonInput (st : State) (s : String) : List String :=
  if isAbsolute s then normalize (splitPath s) else normalize (st.cwd ++ splitPath s)

/-- `Terminal._resolve_path` (src/main.py lines 93-108): empty input yields
`cwd`; otherwise the input is canonicalized and, if the result is not `root`
or a descendant (`relative_to` fails), it is clamped to
`(root / p.name).resolve()`. -/
def resolvePath (st : State) (s : String) : List String :=
  if s = "" then st.cwd
  else
    let p := canonInput st s
    if st.root.isPrefixOf p then p
    else normalize (st.root ++ p.getLast?.toList)

/-- A single-quote character as a string (used to build message/input
literals that contain one). -/
def sq : String := String.singleton '\''

/-- The characters `shlex` treats as token-separating whitespace. -/
def isWS (c : Char) : Bool := c == ' ' || c == '\t' || c == '\r' || c == '\n'

/-- Lexer mode of `shlex` in POSIX mode: outside quotes, inside single
quotes, inside double quotes, or just after a backslash (outside or inside
double quotes). -/
inductive Mode where
  | normal
  | single
  | double
  | escNormal
  | escDouble
deriving DecidableEq

/-- Character-by-character POSIX lexing as performed by `shlex.split`:
`cur` is the token under construction (`none` when no token is open),
`acc` the completed tokens.  Unbalanced quotes and a trailing backslash
raise `ValueError`, modelled as `Except.error` with `str(e)`. -/
def splitAux : List Char → Mode → Option String → List String → Except String (List String)
  | [], .normal, cur, acc => .ok (acc ++ cur.toList)
  | [], .single, _, _ => .error "No closing quotation"
  | [], .double, _, _ => .error "No closing quotation"
  | [], .escNormal, _, _ => .error "No escaped character"
  | [], .escDouble, _, _ => .error "No escaped character"
  | c :: rest, .normal, cur, acc =>
    if isWS c then
      match cur with
      | none => splitAux rest .normal none acc
      | some t => splitAux rest .normal none (acc ++ [t])
    else if c = '\'' then splitAux rest .single (some (cur.getD "")) acc
    else if c = '"' then splitAux rest .double (some (cur.getD "")) acc
    else if c = '\\' then splitAux rest .escNormal (some (cur.getD "")) acc
    else splitAux rest .normal (some ((cur.getD "").push c)) acc
  | c :: rest, .single, cur, acc =>
    if c = '\'' then splitAux rest .normal cur acc
    else splitAux rest .single (some ((cur.getD "").push c)) acc
  | c :: rest, .double, cur, acc =>
    if c = '"' then splitAux rest .normal cur acc
    else if c = '\\' then splitAux rest .escDouble cur acc
    else splitAux rest .double (some ((cur.getD "").push c)) acc
  | c :: rest, .escNormal, cur, acc =>
    splitAux rest .normal (some ((cur.getD "").push c)) acc
  | c :: rest, .escDouble, cur, acc =>
    if c = '"' || c = '\\' then splitAux rest .double (some ((cur.getD "").push c)) acc
    else splitAux rest .double (some (((cur.getD "").push '\\').push c)) acc

/-- `shlex.split(line)` (POSIX rules, as called at src/main.py line 136). -/
def shlexSplit (line : String) : Except String (List String) :=
  splitAux line.toList .normal none []

/-- A chunk written by `print(x)`. -/
def outLine (s : String) : String := s ++ "\n"

/-- A chunk written by `Terminal._print_err` (src/main.py line 111). -/
def errLine (msg : String) : String := "error: " ++ msg ++ "\n"

/-- Result of running one command handler: normal return, an exception
propagating to the `execute` boundary (src/main.py line 149), or the
`SystemExit` that `exit`/`quit` raises.  Each carries the session state and
the chunks printed before returning/raising. -/
inductive HRes where
  | ok (st : State) (out : List String)
  | raised (st : State) (out : List String) (msg : String)
  | exitSig (st : State) (out : List String)
deriving DecidableEq

/-- Session state carried by a handler result. -/
def HRes.state : HRes → State
  | .ok st _ => st
  | .raised st _ _ => st
  | .exitSig st _ => st

/-- Output carried by a handler result. -/
def HRes.output : HRes → List String
  | .ok _ out => out
  | .raised _ out _ => out
  | .exitSig _ out => out

/-- `Path.mkdir(parents=True, exist_ok=True)`: no-op on an existing
directory; `FileExistsError` if the path is a file, `NotADirectoryError`
if an ancestor is a file; otherwise the path and its missing ancestors
become directories. -/
def FS.mkdirp (fs : FS) (p : List String) : Except String FS :=
  if fs.isDir p then .ok fs
  else if fs.isFile p then .error ("[Errno 17] File exists: " ++ pathStr p)
  else if (List.inits p).any (fun q => fs.isFile q) then
    .error ("[Errno 20] Not a directory: " ++ pathStr p)
  else .ok { fs with dirs := fs.dirs ++ (List.inits p).filter (fun q => !(fs.dirs.contains q)) }

/-- `shutil.rmtree(p)`: remove `p` and everything below it. -/
def FS.rmtree (fs : FS) (p : List String) : FS :=
  { dirs := fs.dirs.filter (fun d => !(p.isPrefixOf d)),
    files := fs.files.filter (fun f => !(p.isPrefixOf f.1)) }

/-- `Path.unlink()`: remove the file at `p`. -/
def FS.unlink (fs : FS) (p : List String) : FS :=
  { fs with files := fs.files.filter (fun f => !(f.1 == p)) }

/-- `shutil.copytree(src, dst, dirs_exist_ok=True)`, abstracted to its
effect: every entry under `src` is duplicated under `dst` (existing files
there are overwritten); error cases of the external call are not modelled
(no claim depends on them). -/
def FS.copytreeM (fs : FS) (src dst : List String) : FS :=
  let newDirs := (fs.dirs.filter (fun d => src.isPrefixOf d)).map
    (fun d => dst ++ d.drop src.length)
  let newFiles := (fs.files.filter (fun f => src.isPrefixOf f.1)).map
    (fun f => (dst ++ f.1.drop src.length, f.2))
  { dirs := fs.dirs ++ newDirs.filter (fun d => !(fs.dirs.contains d)),
    files := fs.files.filter (fun f => !(newFiles.any (fun g => g.1 == f.1))) ++ newFiles }

/-- An `os.rename`-style move, abstracted to its effect: entries under
`src` are rebased under `dst`, an entry previously at `dst` is overwritten. -/
def FS.renameM (fs : FS) (src dst : List String) : FS :=
  let keep := fun (q : List String) => !(src.isPrefixOf q) && !(q == dst)
  { dirs := fs.dirs.filter keep ++
      (fs.dirs.filter (fun d => src.isPrefixOf d)).map (fun d => dst ++ d.drop src.length),
    files := fs.files.filter (fun f => keep f.1) ++
      (fs.files.filter (fun f => src.isPrefixOf f.1)).map
        (fun f => (dst ++ f.1.drop src.length, f.2)) }

/-- Static text printed by `help` (src/main.py lines 154-174). -/
def helpText : String :=
  "Built-in commands:\n  help                 Show this help\n  pwd                  Print working directory\n  ls [path]            List files (add -a to include hidden)\n  cd [path]            Change directory (sandboxed to project root)\n  mkdir <dir>...       Create directories (supports multiple)\n  rm [-r] <path>...    Remove files; -r for directories\n  touch <file>...      Create empty file(s) or update mtime\n  cat <file>...        Print file(s)\n  echo [text]          Print text\n  cp <src> <dst>       Copy file/dir (dst may be dir)\n  mv <src> <dst>       Move/rename\n  head [-n N] <file>   First N lines (default 10)\n  tail [-n N] <file>   Last N lines (default 10)\n  ps                   Show running processes (system)\n  sysmon               CPU & memory snapshot\n  df                   Disk usage for project root\n  history              Show recent command history (if available)\n  exit | quit          Leave terminal"

/-- `cmd_help`. -/
def cmd_help (st : State) (_args : List String) : HRes := .ok st [outLine helpText]

/-- `cmd_pwd`. -/
def cmd_pwd (st : State) (_args : List String) : HRes := .ok st [outLine (pathStr st.cwd)]

/-- Argument scan of `cmd_ls` (src/main.py lines 180-186): `-a` sets the
flag, every other argument overwrites the target. -/
def lsParseAux (acc : Bool × Option String) : List String → Bool × Option String
  | [] => acc
  | a :: rest =>
    if a = "-a" then lsParseAux (true, acc.2) rest else lsParseAux (acc.1, some a) rest

/-- Child entries of directory `p` (name, is-directory), in model-filesystem
order (standing in for the unspecified `iterdir` order before sorting). -/
def FS.childNames (fs : FS) (p : List String) : List (String × Bool) :=
  fs.dirs.filterMap (fun d =>
    if d.length = p.length + 1 && p.isPrefixOf d then d.getLast?.map (fun nm => (nm, true))
    else none) ++
  fs.files.filterMap (fun f =>
    if f.1.length = p.length + 1 && p.isPrefixOf f.1 then f.1.getLast?.map (fun nm => (nm, false))
    else none)

/-- The sort key of `cmd_ls`: `(not p.is_dir(), p.name.lower())`. -/
def lsKey (e : String × Bool) : Nat × String := (if e.2 then 0 else 1, e.1.toLower)

/-- Tuple comparison on `lsKey` (Python compares tuples lexicographically). -/
def lsLe (a b : String × Bool) : Prop :=
  (lsKey a).1 < (lsKey b).1 ∨ ((lsKey a).1 = (lsKey b).1 ∧ (lsKey a).2 ≤ (lsKey b).2)

instance : DecidableRel lsLe := fun a b => by unfold lsLe; infer_instance

/-- `cmd_ls` (src/main.py lines 179-199). -/
def cmd_ls (st : State) (args : List String) : HRes :=
  let pr := lsParseAux (false, none) args
  let path := resolvePath st (pr.2.getD "")
  if !(st.fs.pathEx path) then .ok st [errLine "path not found"]
  else if st.fs.isFile path then .ok st [outLine (path.getLast?.getD "")]
  else
    let items := List.insertionSort lsLe (st.fs.childNames path)
    .ok st (items.filterMap (fun e =>
      if !pr.1 && e.1.startsWith "." then none
      else some (outLine (e.1 ++ (if e.2 then "/" else "")))))

/-- The candidate directory of `cmd_cd`: `self._resolve_path(args[0]) if
args else self.root` (src/main.py line 202). -/
def cdTarget (st : State) (args : List String) : List String :=
  match args with
  | [] => st.root
  | a :: _ => resolvePath st a

/-- `cmd_cd` (src/main.py lines 201-212): missing or non-directory targets
and targets failing the confinement re-check are reported with `cwd`
unchanged; otherwise `cwd` becomes the candidate. -/
def cmd_cd (st : State) (args : List String) : HRes :=
  let path := cdTarget st args
  if !(st.fs.pathEx path && st.fs.isDir path) then .ok st [errLine "no such directory"]
  else if !(st.root.isPrefixOf path) then
    .ok st [errLine "access outside project root is blocked"]
  else .ok { st with cwd := path } []

/-- The per-directory loop of `cmd_mkdir`: a raised `OSError` aborts the
remaining arguments and propagates. -/
def mkdirLoop (st : State) : List String → HRes
  | [] => .ok st []
  | d :: rest =>
    match st.fs.mkdirp (resolvePath st d) with
    | .error m => .raised st [] m
    | .ok fs₁ => mkdirLoop { st with fs := fs₁ } rest

/-- `cmd_mkdir` (src/main.py lines 214-219). -/
def cmd_mkdir (st : State) (args : List String) : HRes :=
  if args = [] then .ok st [errLine "usage: mkdir <dir>..."]
  else mkdirLoop st args

/-- The per-path loop of `cmd_rm` (src/main.py lines 232-246): each failing
item is reported and the loop continues with the rest. -/
def rmLoop (confirm : List String → Bool) (recursive : Bool) :
    State → List String → State × List String
  | st, [] => (st, [])
  | st, pstr :: rest =>
    let p := resolvePath st pstr
    if !(st.fs.pathEx p) then
      let r := rmLoop confirm recursive st rest
      (r.1, errLine ("not found: " ++ pstr) :: r.2)
    else if st.fs.isDir p then
      if !recursive then
        let r := rmLoop confirm recursive st rest
        (r.1, errLine ("is a directory (use -r): " ++ pstr) :: r.2)
      else if !(confirm p) then
        let r := rmLoop confirm recursive st rest
        (r.1, outLine "aborted" :: r.2)
      else rmLoop confirm recursive { st with fs := st.fs.rmtree p } rest
    else rmLoop confirm recursive { st with fs := st.fs.unlink p } rest

/-- `cmd_rm` (src/main.py lines 221-246); `confirm` is the interactive
yes/no oracle of `_confirm`. -/
def cmd_rm (st : State) (confirm : List String → Bool) (args : List String) : HRes :=
  if args = [] then .ok st [errLine "usage: rm [-r] <path>..."]
  else
    let recursive := args.contains "-r"
    let paths := args.filter (fun a => !(a == "-r"))
    let r := rmLoop confirm recursive st paths
    .ok r.1 r.2

/-- The per-file loop of `cmd_touch` (src/main.py lines 252-256): opening a
directory for append raises, aborting the remaining arguments. -/
def touchLoop (st : State) : List String → HRes
  | [] => .ok st []
  | f :: rest =>
    let p := resolvePath st f
    match st.fs.mkdirp p.dropLast with
    | .error m => .raised st [] m
    | .ok fs₁ =>
      if fs₁.isDir p then
        .raised { st with fs := fs₁ } [] ("[Errno 21] Is a directory: " ++ pathStr p)
      else if fs₁.isFile p then touchLoop { st with fs := fs₁ } rest
      else touchLoop { st with fs := { fs₁ with files := fs₁.files ++ [(p, "")] } } rest

/-- `cmd_touch` (src/main.py lines 248-256). -/
def cmd_touch (st : State) (args : List String) : HRes :=
  if args = [] then .ok st [errLine "usage: touch <file>..."]
  else touchLoop st args

/-- The per-file loop of `cmd_cat` (src/main.py lines 262-268): a missing or
non-regular file is reported and the loop continues; file contents are
written without a trailing newline (`print(..., end='')`). -/
def catLoop (st : State) : List String → List String
  | [] => []
  | f :: rest =>
    let p := resolvePath st f
    if !(st.fs.pathEx p && st.fs.isFile p) then
      errLine ("no such file: " ++ f) :: catLoop st rest
    else fileContent st.fs p :: catLoop st rest

/-- `cmd_cat` (src/main.py lines 258-268). -/
def cmd_cat (st : State) (args : List String) : HRes :=
  if args = [] then .ok st [errLine "usage: cat <file>..."]
  else .ok st (catLoop st args)

/-- `cmd_echo` (src/main.py lines 270-271). -/
def cmd_echo (st : State) (args : List String) : HRes :=
  .ok st [outLine (String.intercalate " " args)]

/-- `cmd_cp` (src/main.py lines 273-290). -/
def cmd_cp (st : State) (args : List String) : HRes :=
  match args with
  | a0 :: a1 :: _ =>
    let src := resolvePath st a0
    let dst := resolvePath st a1
    if !(st.fs.pathEx src) then .ok st [errLine "source not found"]
    else if st.fs.isDir src then
      let dst₁ := if st.fs.pathEx dst && st.fs.isDir dst then dst ++ src.getLast?.toList else dst
      .ok { st with fs := st.fs.copytreeM src dst₁ } []
    else
      let dst₁ := if st.fs.isDir dst then dst ++ src.getLast?.toList else dst
      match st.fs.mkdirp dst₁.dropLast with
      | .error m => .raised st [] m
      | .ok fs₁ =>
        if fs₁.isDir dst₁ then
          .raised { st with fs := fs₁ } [] ("[Errno 21] Is a directory: " ++ pathStr dst₁)
        else
          .ok { st with fs :=
            { fs₁ with files := fs₁.files.filter (fun f => !(f.1 == dst₁)) ++
                [(dst₁, fileContent st.fs src)] } } []
  | _ => .ok st [errLine "usage: cp <src> <dst>"]

/-- `cmd_mv` (src/main.py lines 292-302); `shutil.move` places the source
inside an existing destination directory and refuses to overwrite there. -/
def cmd_mv (st : State) (args : List String) : HRes :=
  match args with
  | a0 :: a1 :: _ =>
    let src := resolvePath st a0
    let dst := resolvePath st a1
    if !(st.fs.pathEx src) then .ok st [errLine "source not found"]
    else
      match st.fs.mkdirp dst.dropLast with
      | .error m => .raised st [] m
      | .ok fs₁ =>
        if fs₁.isDir dst then
          let dst₁ := dst ++ src.getLast?.toList
          if fs₁.pathEx dst₁ then
            .raised { st with fs := fs₁ } []
              ("Destination path " ++ sq ++ pathStr dst₁ ++ sq ++ " already exists")
          else .ok { st with fs := fs₁.renameM src dst₁ } []
        else .ok { st with fs := fs₁.renameM src dst } []
  | _ => .ok st [errLine "usage: mv <src> <dst>"]

/-- The lines of a text file as Python file iteration yields them: each
keeps its terminating newline; a final unterminated segment is a line
without one; the empty file has no lines. -/
def fileLines (s : String) : List String :=
  let parts := s.splitOn "\n"
  parts.dropLast.map (fun t => t ++ "\n") ++
    (if parts.getLast?.getD "" = "" then [] else [parts.getLast?.getD ""])

/-- `Terminal._read_n_lines` (src/main.py lines 304-321): nothing for
`n <= 0`; otherwise the first `n` lines, or for `tail` the last `n`
(the bounded `deque(maxlen=n)`). -/
def readNLines (content : String) (n : Int) (tl : Bool) : List String :=
  if n ≤ 0 then []
  else
    let ls := fileLines content
    if tl then ls.drop (ls.length - n.toNat) else ls.take n.toNat

/-- The `-n N` argument scan shared by `cmd_head` and `cmd_tail`
(src/main.py lines 327-338): `-n` consumes the next argument as an integer
(`invalid N` when absent or unparsable), everything else is a file. -/
def parseNArgs (n : Int) (files : List String) : List String → Except String (Int × List String)
  | [] => .ok (n, files)
  | a :: rest =>
    if a = "-n" then
      match rest with
      | [] => .error "invalid N"
      | b :: rest₁ =>
        match b.toInt? with
        | none => .error "invalid N"
        | some m => parseNArgs m files rest₁
    else parseNArgs n (files ++ [a]) rest

/-- The per-file loop shared by `cmd_head` and `cmd_tail` (src/main.py
lines 339-344 and 362-367): a missing file is reported and the loop
continues with the remaining files. -/
def hdLoop (st : State) (n : Int) (tl : Bool) : List String → List String
  | [] => []
  | f :: rest =>
    let p := resolvePath st f
    if !(st.fs.pathEx p && st.fs.isFile p) then
      errLine ("no such file: " ++ f) :: hdLoop st n tl rest
    else readNLines (fileContent st.fs p) n tl ++ hdLoop st n tl rest

/-- `cmd_head` (src/main.py lines 323-344). -/
def cmd_head (st : State) (args : List String) : HRes :=
  if args = [] then .ok st [errLine "usage: head [-n N] <file>"]
  else
    match parseNArgs 10 [] args with
    | .error m => .ok st [errLine m]
    | .ok (n, files) => .ok st (hdLoop st n false files)

/-- `cmd_tail` (src/main.py lines 346-367). -/
def cmd_tail (st : State) (args : List String) : HRes :=
  if args = [] then .ok st [errLine "usage: tail [-n N] <file>"]
  else
    match parseNArgs 10 [] args with
    | .error m => .ok st [errLine m]
    | .ok (n, files) => .ok st (hdLoop st n true files)

/-- `cmd_ps` (src/main.py lines 369-377): delegates to a host process
listing; session state untouched, host output abstracted. -/
def cmd_ps (st : State) (_args : List String) : HRes := .ok st []

/-- `cmd_sysmon` (src/main.py lines 379-402): prints a host snapshot;
session state untouched, host output abstracted. -/
def cmd_sysmon (st : State) (_args : List String) : HRes := .ok st []

/-- `cmd_df` (src/main.py lines 404-408): prints host disk usage; session
state untouched, host output abstracted. -/
def cmd_df (st : State) (_args : List String) : HRes := .ok st []

/-- `cmd_history` (src/main.py lines 410-417): prints readline history;
session state untouched, host output abstracted. -/
def cmd_history (st : State) (_args : List String) : HRes := .ok st []

/-- `cmd_exit` (src/main.py lines 419-420): raises `SystemExit`. -/
def cmd_exit (st : State) (_args : List String) : HRes := .exitSig st []

/-- The handlers registered in `Terminal.__init__` (src/main.py
lines 48-68). -/
inductive Cmd where
  | help | pwd | ls | cd | mkdir | rm | touch | cat | echo | cp | mv
  | head | tail | ps | sysmon | df | history | exitCmd
deriving DecidableEq

/-- The `self.commands` registry (src/main.py lines 48-68): name to
handler, `exit` and `quit` sharing `cmd_exit`. -/
def registry : List (String × Cmd) :=
  [("help", .help), ("pwd", .pwd), ("ls", .ls), ("cd", .cd), ("mkdir", .mkdir),
   ("rm", .rm), ("touch", .touch), ("cat", .cat), ("echo", .echo), ("cp", .cp),
   ("mv", .mv), ("head", .head), ("tail", .tail), ("ps", .ps), ("sysmon", .sysmon),
   ("df", .df), ("history", .history), ("exit", .exitCmd), ("quit", .exitCmd)]

/-- `self.commands.get(cmd)` (src/main.py line 141). -/
def lookupCmd (s : String) : Option Cmd := registry.lookup s

/-- Dispatch to the handler body. -/
def runCmd (c : Cmd) (st : State) (confirm : List String → Bool) (args : List String) : HRes :=
  match c with
  | .help => cmd_help st args
  | .pwd => cmd_pwd st args
  | .ls => cmd_ls st args
  | .cd => cmd_cd st args
  | .mkdir => cmd_mkdir st args
  | .rm => cmd_rm st confirm args
  | .touch => cmd_touch st args
  | .cat => cmd_cat st args
  | .echo => cmd_echo st args
  | .cp => cmd_cp st args
  | .mv => cmd_mv st args
  | .head => cmd_head st args
  | .tail => cmd_tail st args
  | .ps => cmd_ps st args
  | .sysmon => cmd_sysmon st args
  | .df => cmd_df st args
  | .history => cmd_history st args
  | .exitCmd => cmd_exit st args

/-- Outcome of `Terminal.execute`: normal return, the propagating
`SystemExit` of `exit`/`quit`, or an uncaught fault escaping `execute`
(each with the state and the chunks printed so far). -/
inductive ExecResult where
  | ok (st : State) (out : List String)
  | exited (st : State) (out : List String)
  | fault (st : State) (out : List String) (msg : String)
deriving DecidableEq

/-- Session state carried by an execute outcome. -/
def ExecResult.state : ExecResult → State
  | .ok st _ => st
  | .exited st _ => st
  | .fault st _ _ => st

/-- `Terminal.execute` (src/main.py lines 134-150): tokenize (reporting
`ParseError`), unpack `cmd, *args` (an uncaught `ValueError` when the token
list is empty - the unpack sits outside the `try`), look up the handler
(reporting unknown commands), then run it with handler exceptions converted
to a single error line and `SystemExit` re-raised. -/
def execute (st : State) (confirm : List String → Bool) (line : String) : ExecResult :=
  match shlexSplit line with
  | .error e => .ok st [errLine ("parse error: " ++ e)]
  | .ok [] => .fault st [] "not enough values to unpack (expected at least 1, got 0)"
  | .ok (cmd :: args) =>
    match lookupCmd cmd with
    | none => .ok st [errLine ("unknown command: " ++ cmd ++ ". Try " ++ sq ++ "help" ++ sq ++ ".")]
    | some c =>
      match runCmd c st confirm args with
      | .ok st₁ out => .ok st₁ out
      | .raised st₁ out m => .ok st₁ (out ++ [errLine m])
      | .exitSig st₁ out => .exited st₁ out

/-- The session states reachable from construction (`__init__` sets
`cwd = root`; the filesystem at construction is arbitrary) by any sequence
of `execute` calls. -/
inductive Reachable : State → Prop where
  | init (root : List String) (fs : FS) : Reachable ⟨root, root, fs⟩
  | step (st : State) (confirm : List String → Bool) (line : String) :
      Reachable st → Reachable (execute st confirm line).state

/-- Concrete sandbox filesystem used by witnesses: a root directory `/sb`. -/
def fs0 : FS := ⟨[[], ["sb"]], []⟩

/-- Concrete session at construction time: `root = cwd = /sb`. -/
def st0 : State := ⟨["sb"], ["sb"], fs0⟩

/-- Concrete session with a deeper root `/home/user/sb`. -/
def st2 : State := ⟨["home", "user", "sb"], ["home", "user", "sb"],
  ⟨[[], ["home", "user", "sb"]], []⟩⟩

/-- Concrete session whose sandbox contains a subdirectory `d`. -/
def st9 : State := ⟨["sb"], ["sb"], ⟨[[], ["sb"], ["sb", "d"]], []⟩⟩

/-- Concrete session whose sandbox contains subdirectories `a` and `b`. -/
def st10 : State := ⟨["sb"], ["sb"], ⟨[[], ["sb"], ["sb", "a"], ["sb", "b"]], []⟩⟩

/-- The state after `mkdir x` in `st0`. -/
def st8a : State := ⟨["sb"], ["sb"], ⟨[[], ["sb"], ["sb", "x"]], []⟩⟩

/-- A confirmation oracle that always answers yes. -/
def confirmYes : List String → Bool := fun _ => true

/-- The final component of the raw (uncanonicalized) input string, for
stating the claim that the clamp uses the basename of the user input. -/
def basenameRaw (s : String) : String := (splitPath s).getLast?.getD ""

/-!  Helper lemmas about the path model. -/

theorem isPrefixOf_eq {l₁ l₂ : List String} : l₁.isPrefixOf l₂ = true ↔ l₁ <+: l₂ :=
  List.isPrefixOf_iff_prefix

theorem contains_eq_mem {l : List (List String)} {a : List String} :
    l.contains a = true ↔ a ∈ l := by
  simp [List.contains, List.elem_eq_mem]

theorem getLast?_mem {a : String} {l : List String} (h : l.getLast? = some a) : a ∈ l := by
  cases l with
  | nil => simp at h
  | cons x xs =>
    have hne : (x :: xs) ≠ [] := by simp
    rw [List.getLast?_eq_getLast_of_ne_nil hne] at h
    cases h
    exact List.getLast_mem hne

theorem normAux_append (l₁ l₂ acc : List String) :
    normAux acc (l₁ ++ l₂) = normAux (normAux acc l₁) l₂ := by
  induction l₁ generalizing acc with
  | nil => rfl
  | cons c rest ih =>
    by_cases h1 : c = "."
    · simp [normAux, h1, ih]
    · by_cases h2 : c = ".."
      · simp [normAux, h1, h2, ih]
      · simp [normAux, h1, h2, ih]

theorem normAux_flat (l acc : List String) (h : ∀ c ∈ l, c ≠ "." ∧ c ≠ "..") :
    normAux acc l = acc ++ l := by
  induction l generalizing acc with
  | nil => simp [normAux]
  | cons c rest ih =>
    obtain ⟨h1, h2⟩ := h c (List.mem_cons_self c rest)
    have hr : ∀ d ∈ rest, d ≠ "." ∧ d ≠ ".." := fun d hd => h d (List.mem_cons_of_mem _ hd)
    simp [normAux, h1, h2, ih _ hr]

theorem mem_normAux {a : String} (l acc : List String) (h : a ∈ normAux acc l) :
    a ∈ acc ∨ (a ∈ l ∧ a ≠ "." ∧ a ≠ "..") := by
  induction l generalizing acc with
  | nil => exact Or.inl h
  | cons c rest ih =>
    by_cases h1 : c = "."
    · rcases ih _ (by simpa [normAux, h1] using h) with hacc | hl
      · exact Or.inl hacc
      · exact Or.inr ⟨List.mem_cons_of_mem _ hl.1, hl.2⟩
    · by_cases h2 : c = ".."
      · rcases ih _ (by simpa [normAux, h1, h2] using h) with hacc | hl
        · exact Or.inl (List.dropLast_subset _ hacc)
        · exact Or.inr ⟨List.mem_cons_of_mem _ hl.1, hl.2⟩
      · rcases ih _ (by simpa [normAux, h1, h2] using h) with hacc | hl
        · rcases List.mem_append.mp hacc with h' | h'
          · exact Or.inl h'
          · rcases List.mem_singleton.mp h' with rfl
            exact Or.inr ⟨List.mem_cons_self _ _, h1, h2⟩
        · exact Or.inr ⟨List.mem_cons_of_mem _ hl.1, hl.2⟩

theorem mem_normalize {a : String} {l : List String} (h : a ∈ normalize l) :
    a ∈ l ∧ a ≠ "." ∧ a ≠ ".." := by
  rcases mem_normAux l [] h with h' | h'
  · exact absurd h' (List.not_mem_nil a)
  · exact h'

theorem Canonical.flat {p : List String} (h : Canonical p) :
    ∀ c ∈ p, c ≠ "." ∧ c ≠ ".." :=
  fun c hc => ⟨(h c hc).2.1, (h c hc).2.2⟩

theorem canonInput_eq_normalize (st : State) (s : String) :
    ∃ l, canonInput st s = normalize l := by
  unfold canonInput
  split
  · exact ⟨_, rfl⟩
  · exact ⟨_, rfl⟩

theorem normalize_canonical_append (root rest : List String)
    (hroot : ∀ c ∈ root, c ≠ "." ∧ c ≠ "..") (hrest : ∀ c ∈ rest, c ≠ "." ∧ c ≠ "..") :
    normalize (root ++ rest) = root ++ rest := by
  unfold normalize
  refine normAux_flat _ _ ?_
  intro c hc
  rcases List.mem_append.mp hc with h | h
  · exact hroot c h
  · exact hrest c h

/-- C1: for every string `s` (including escaping inputs such as
`../../etc/passwd`, `/etc/passwd`, `....//....//root`) and every `cwd` that
is the (canonicalized) root or a descendant of it, the path returned by
`_resolve_path(s)` is equal to `root` or has `root` as an ancestor. -/
theorem c1_confinement (st : State) (s : String)
    (hroot : Canonical st.root) (hcwd : st.root <+: st.cwd) :
    st.root <+: resolvePath st s := by
  unfold resolvePath
  by_cases hs : s = ""
  · simpa [hs] using hcwd
  · simp only [hs, if_false]
    by_cases hpre : st.root.isPrefixOf (canonInput st s) = true
    · simpa [hpre] using isPrefixOf_eq.mp hpre
    · rw [Bool.not_eq_true] at hpre
      simp only [hpre, Bool.false_eq_true, if_false]
      obtain ⟨l, hl⟩ := canonInput_eq_normalize st s
      cases hg : (canonInput st s).getLast? with
      | none =>
        rw [show Option.toList (none : Option String) = [] from rfl,
          normalize_canonical_append st.root [] hroot.flat (by simp)]
        exact ⟨[], rfl⟩
      | some nm =>
        have hnm := (mem_normalize (hl ▸ getLast?_mem hg)).2
        rw [show Option.toList (some nm) = [nm] from rfl,
          normalize_canonical_append st.root [nm] hroot.flat
            (by intro c hc; rcases List.mem_singleton.mp hc with rfl; exact hnm)]
        exact ⟨[nm], rfl⟩

/-- Witness for C1 at the three escaping inputs named by the spec, in the
concrete session `st2` (`root = cwd = /home/user/sb`). -/
theorem c1_confinement_witness :
    Canonical st2.root ∧ st2.root <+: st2.cwd ∧
    st2.root <+: resolvePath st2 "../../etc/passwd" ∧
    st2.root <+: resolvePath st2 "/etc/passwd" ∧
    st2.root <+: resolvePath st2 "....//....//root" :=
  ⟨by decide, by decide,
    c1_confinement st2 "../../etc/passwd" (by decide) (by decide),
    c1_confinement st2 "/etc/passwd" (by decide) (by decide),
    c1_confinement st2 "....//....//root" (by decide) (by decide)⟩

/-- Counterexample to C2 as stated: in `st2` (`root = cwd = /home/user/sb`)
the input `".."` canonicalizes to `/home/user`, which escapes the sandbox,
yet `_resolve_path` returns `/home/user/sb/user` - `root` extended with the
basename of the *canonicalized* path - which is neither
`root / basename(input)` (`root / ".."`, raw or canonicalized) nor `root`. -/
theorem c2_counterexample :
    (st2.root <+: canonInput st2 ".." → False) ∧
    resolvePath st2 ".." = ["home", "user", "sb", "user"] ∧
    ["home", "user", "sb", "user"] ≠ st2.root ++ [basenameRaw ".."] ∧
    ["home", "user", "sb", "user"] ≠ normalize (st2.root ++ [basenameRaw ".."]) ∧
    ["home", "user", "sb", "user"] ≠ st2.root := by decide

/-- C2 amended: for every input whose canonicalized form escapes the
sandbox, `_resolve_path` does not fail; it returns `root` extended with the
final component of the **canonicalized** path (so `root` itself when that
path is the filesystem root) - not the basename of the raw input. -/
theorem c2_clamp (st : State) (s : String) (hroot : Canonical st.root) (hs : s ≠ "")
    (hout : ¬ st.root <+: canonInput st s) :
    resolvePath st s = st.root ++ (canonInput st s).getLast?.toList := by
  unfold resolvePath
  have hpre : st.root.isPrefixOf (canonInput st s) = false := by
    cases h : st.root.isPrefixOf (canonInput st s)
    · rfl
    · exact absurd (isPrefixOf_eq.mp h) hout
  simp only [hs, if_false, hpre, Bool.false_eq_true]
  obtain ⟨l, hl⟩ := canonInput_eq_normalize st s
  cases hg : (canonInput st s).getLast? with
  | none =>
    rw [show Option.toList (none : Option String) = [] from rfl]
    exact normalize_canonical_append st.root [] hroot.flat (by simp)
  | some nm =>
    have hnm := (mem_normalize (hl ▸ getLast?_mem hg)).2
    rw [show Option.toList (some nm) = [nm] from rfl]
    exact normalize_canonical_append st.root [nm] hroot.flat
      (by intro c hc; rcases List.mem_singleton.mp hc with rfl; exact hnm)

/-- Witness for the amended C2, at the counterexample input. -/
theorem c2_clamp_witness :
    Canonical st2.root ∧ (".." : String) ≠ "" ∧ (¬ st2.root <+: canonInput st2 "..") ∧
    resolvePath st2 ".." = st2.root ++ (canonInput st2 "..").getLast?.toList :=
  ⟨by decide, by decide, by decide, c2_clamp st2 ".." (by decide) (by decide) (by decide)⟩

/-!  State preservation: no handler but `cd` touches `root` or `cwd`. -/

theorem cmd_ls_state (st : State) (args : List String) : (cmd_ls st args).state = st := by
  unfold cmd_ls
  dsimp only
  repeat' split
  all_goals rfl

theorem mkdirLoop_state (l : List String) (st : State) :
    ((mkdirLoop st l).state).root = st.root ∧ ((mkdirLoop st l).state).cwd = st.cwd := by
  induction l generalizing st with
  | nil => exact ⟨rfl, rfl⟩
  | cons d rest ih =>
    unfold mkdirLoop
    cases h : st.fs.mkdirp (resolvePath st d) with
    | error m => exact ⟨rfl, rfl⟩
    | ok fs₁ => exact ih { st with fs := fs₁ }

theorem cmd_mkdir_state (st : State) (args : List String) :
    ((cmd_mkdir st args).state).root = st.root ∧ ((cmd_mkdir st args).state).cwd = st.cwd := by
  unfold cmd_mkdir
  split
  · exact ⟨rfl, rfl⟩
  · exact mkdirLoop_state args st

theorem rmLoop_state (confirm : List String → Bool) (r : Bool) (l : List String) (st : State) :
    ((rmLoop confirm r st l).1).root = st.root ∧ ((rmLoop confirm r st l).1).cwd = st.cwd := by
  induction l generalizing st with
  | nil => exact ⟨rfl, rfl⟩
  | cons x rest ih =>
    unfold rmLoop
    dsimp only
    repeat' split
    all_goals exact ih _

theorem cmd_rm_state (st : State) (confirm : List String → Bool) (args : List String) :
    ((cmd_rm st confirm args).state).root = st.root ∧
    ((cmd_rm st confirm args).state).cwd = st.cwd := by
  unfold cmd_rm
  split
  · exact ⟨rfl, rfl⟩
  · exact rmLoop_state confirm _ _ st

theorem touchLoop_state (l : List String) (st : State) :
    ((touchLoop st l).state).root = st.root ∧ ((touchLoop st l).state).cwd = st.cwd := by
  induction l generalizing st with
  | nil => exact ⟨rfl, rfl⟩
  | cons f rest ih =>
    unfold touchLoop
    dsimp only
    repeat' split
    all_goals first
    | exact ⟨rfl, rfl⟩
    | exact ih _

theorem cmd_touch_state (st : State) (args : List String) :
    ((cmd_touch st args).state).root = st.root ∧ ((cmd_touch st args).state).cwd = st.cwd := by
  unfold cmd_touch
  split
  · exact ⟨rfl, rfl⟩
  · exact touchLoop_state args st

theorem cmd_cat_state (st : State) (args : List String) : (cmd_cat st args).state = st := by
  unfold cmd_cat
  split
  · rfl
  · rfl

theorem cmd_cp_state (st : State) (args : List String) :
    ((cmd_cp st args).state).root = st.root ∧ ((cmd_cp st args).state).cwd = st.cwd := by
  unfold cmd_cp
  dsimp only
  repeat' split
  all_goals exact ⟨rfl, rfl⟩

theorem cmd_mv_state (st : State) (args : List String) :
    ((cmd_mv st args).state).root = st.root ∧ ((cmd_mv st args).state).cwd = st.cwd := by
  unfold cmd_mv
  dsimp only
  repeat' split
  all_goals exact ⟨rfl, rfl⟩

theorem cmd_head_state (st : State) (args : List String) : (cmd_head st args).state = st := by
  unfold cmd_head
  repeat' split
  all_goals rfl

theorem cmd_tail_state (st : State) (args : List String) : (cmd_tail st args).state = st := by
  unfold cmd_tail
  repeat' split
  all_goals rfl

theorem runCmd_state (c : Cmd) (st : State) (confirm : List String → Bool)
    (args : List String) (hc : c ≠ Cmd.cd) :
    ((runCmd c st confirm args).state).root = st.root ∧
    ((runCmd c st confirm args).state).cwd = st.cwd := by
  cases c with
  | help => exact ⟨rfl, rfl⟩
  | pwd => exact ⟨rfl, rfl⟩
  | ls => rw [show runCmd Cmd.ls st confirm args = cmd_ls st args from rfl, cmd_ls_state]
          exact ⟨rfl, rfl⟩
  | cd => exact absurd rfl hc
  | mkdir => exact cmd_mkdir_state st args
  | rm => exact cmd_rm_state st confirm args
  | touch => exact cmd_touch_state st args
  | cat => rw [show runCmd Cmd.cat st confirm args = cmd_cat st args from rfl, cmd_cat_state]
           exact ⟨rfl, rfl⟩
  | echo => exact ⟨rfl, rfl⟩
  | cp => exact cmd_cp_state st args
  | mv => exact cmd_mv_state st args
  | head => rw [show runCmd Cmd.head st confirm args = cmd_head st args from rfl, cmd_head_state]
            exact ⟨rfl, rfl⟩
  | tail => rw [show runCmd Cmd.tail st confirm args = cmd_tail st args from rfl, cmd_tail_state]
            exact ⟨rfl, rfl⟩
  | ps => exact ⟨rfl, rfl⟩
  | sysmon => exact ⟨rfl, rfl⟩
  | df => exact ⟨rfl, rfl⟩
  | history => exact ⟨rfl, rfl⟩
  | exitCmd => exact ⟨rfl, rfl⟩

theorem cmd_cd_cases (st : State) (args : List String) :
    cmd_cd st args = .ok st [errLine "no such directory"] ∨
    cmd_cd st args = .ok st [errLine "access outside project root is blocked"] ∨
    (st.root.isPrefixOf (cdTarget st args) = true ∧
      cmd_cd st args = .ok { st with cwd := cdTarget st args } []) := by
  unfold cmd_cd
  dsimp only
  split
  · exact Or.inl rfl
  · split
    · exact Or.inr (Or.inl rfl)
    · rename_i h₂
      refine Or.inr (Or.inr ⟨?_, rfl⟩)
      cases hh : st.root.isPrefixOf (cdTarget st args)
      · rw [hh] at h₂; exact absurd rfl h₂
      · rfl

theorem lookupCmd_cd {s : String} (h : lookupCmd s = some Cmd.cd) : s = "cd" := by
  unfold lookupCmd registry at h
  simp only [List.lookup] at h
  repeat' split at h
  all_goals simp_all

theorem execute_parse_err {st : State} {confirm : List String → Bool} {line e : String}
    (hsp : shlexSplit line = .error e) :
    execute st confirm line = .ok st [errLine ("parse error: " ++ e)] := by
  unfold execute
  rw [hsp]

theorem execute_empty_tokens {st : State} {confirm : List String → Bool} {line : String}
    (hsp : shlexSplit line = .ok []) :
    execute st confirm line =
      .fault st [] "not enough values to unpack (expected at least 1, got 0)" := by
  unfold execute
  rw [hsp]

theorem execute_unknown {st : State} {confirm : List String → Bool} {line cmd : String}
    {args : List String} (hsp : shlexSplit line = .ok (cmd :: args))
    (hlk : lookupCmd cmd = none) :
    execute st confirm line =
      .ok st [errLine ("unknown command: " ++ cmd ++ ". Try " ++ sq ++ "help" ++ sq ++ ".")] := by
  unfold execute
  rw [hsp]
  dsimp only
  rw [hlk]

theorem execute_dispatch {st : State} {confirm : List String → Bool} {line cmd : String}
    {args : List String} {c : Cmd} (hsp : shlexSplit line = .ok (cmd :: args))
    (hlk : lookupCmd cmd = some c) :
    execute st confirm line =
      match runCmd c st confirm args with
      | .ok st₁ out => .ok st₁ out
      | .raised st₁ out m => .ok st₁ (out ++ [errLine m])
      | .exitSig st₁ out => .exited st₁ out := by
  unfold execute
  rw [hsp]
  dsimp only
  rw [hlk]

theorem execute_state (st : State) (confirm : List String → Bool) (line : String) :
    ((execute st confirm line).state).root = st.root ∧
    (((execute st confirm line).state).cwd = st.cwd ∨
      st.root <+: ((execute st confirm line).state).cwd) := by
  cases hsp : shlexSplit line with
  | error e => rw [execute_parse_err hsp]; exact ⟨rfl, Or.inl rfl⟩
  | ok parts =>
    cases parts with
    | nil => rw [execute_empty_tokens hsp]; exact ⟨rfl, Or.inl rfl⟩
    | cons cmd args =>
      cases hlk : lookupCmd cmd with
      | none => rw [execute_unknown hsp hlk]; exact ⟨rfl, Or.inl rfl⟩
      | some c =>
        rw [execute_dispatch hsp hlk]
        by_cases hc : c = Cmd.cd
        · subst hc
          rcases cmd_cd_cases st args with h | h | ⟨hpre, h⟩
          · rw [show runCmd Cmd.cd st confirm args = cmd_cd st args from rfl, h]
            exact ⟨rfl, Or.inl rfl⟩
          · rw [show runCmd Cmd.cd st confirm args = cmd_cd st args from rfl, h]
            exact ⟨rfl, Or.inl rfl⟩
          · rw [show runCmd Cmd.cd st confirm args = cmd_cd st args from rfl, h]
            exact ⟨rfl, Or.inr (isPrefixOf_eq.mp hpre)⟩
        · obtain ⟨h1, h2⟩ := runCmd_state c st confirm args hc
          cases hr : runCmd c st confirm args with
          | ok st₁ out =>
            rw [hr] at h1 h2
            exact ⟨h1, Or.inl h2⟩
          | raised st₁ out m =>
            rw [hr] at h1 h2
            exact ⟨h1, Or.inl h2⟩
          | exitSig st₁ out =>
            rw [hr] at h1 h2
            exact ⟨h1, Or.inl h2⟩

/-- C3: (i) in every reachable session state, `cwd` is `root` or a
descendant of `root`; (ii) any `execute` that changes `cwd` was a successful
`cd` (token `"cd"`, no output, only `cwd` updated); (iii) `cd` with a
missing/non-directory target, and (iv) `cd` with a target failing the
confinement re-check, report one error line and leave the state unchanged. -/
theorem c3_cwd_invariant :
    (∀ st, Reachable st → st.root <+: st.cwd) ∧
    (∀ st confirm line, ((execute st confirm line).state).cwd ≠ st.cwd →
      ∃ args, shlexSplit line = .ok ("cd" :: args) ∧
        execute st confirm line = .ok { st with cwd := cdTarget st args } []) ∧
    (∀ st args, (st.fs.pathEx (cdTarget st args) && st.fs.isDir (cdTarget st args)) = false →
      cmd_cd st args = .ok st [errLine "no such directory"]) ∧
    (∀ st args, (st.fs.pathEx (cdTarget st args) && st.fs.isDir (cdTarget st args)) = true →
      st.root.isPrefixOf (cdTarget st args) = false →
      cmd_cd st args = .ok st [errLine "access outside project root is blocked"]) := by
  refine ⟨?_, ?_, ?_, ?_⟩
  · intro st h
    induction h with
    | init root fs => exact ⟨[], by simp⟩
    | step st confirm line hst ih =>
      obtain ⟨h1, h2⟩ := execute_state st confirm line
      rcases h2 with h2 | h2
      · rw [h1, h2]; exact ih
      · rw [h1]; exact h2
  · intro st confirm line hne
    cases hsp : shlexSplit line with
    | error e => exact absurd (by rw [execute_parse_err hsp]; rfl) hne
    | ok parts =>
      cases parts with
      | nil => exact absurd (by rw [execute_empty_tokens hsp]; rfl) hne
      | cons cmd args =>
        cases hlk : lookupCmd cmd with
        | none => exact absurd (by rw [execute_unknown hsp hlk]; rfl) hne
        | some c =>
          by_cases hc : c = Cmd.cd
          · subst hc
            have hcmd : cmd = "cd" := lookupCmd_cd hlk
            subst hcmd
            rcases cmd_cd_cases st args with h | h | ⟨hpre, h⟩
            · refine absurd ?_ hne
              rw [execute_dispatch hsp hlk,
                show runCmd Cmd.cd st confirm args = cmd_cd st args from rfl, h]
              rfl
            · refine absurd ?_ hne
              rw [execute_dispatch hsp hlk,
                show runCmd Cmd.cd st confirm args = cmd_cd st args from rfl, h]
              rfl
            · refine ⟨args, rfl, ?_⟩
              rw [execute_dispatch hsp hlk,
                show runCmd Cmd.cd st confirm args = cmd_cd st args from rfl, h]
          · obtain ⟨h1, h2⟩ := runCmd_state c st confirm args hc
            refine absurd ?_ hne
            rw [execute_dispatch hsp hlk]
            cases hr : runCmd c st confirm args with
            | ok st₁ out => rw [hr] at h2; exact h2
            | raised st₁ out m => rw [hr] at h2; exact h2
            | exitSig st₁ out => rw [hr] at h2; exact h2
  · intro st args h
    unfold cmd_cd
    dsimp only
    rw [show (!(st.fs.pathEx (cdTarget st args) && st.fs.isDir (cdTarget st args))) = true
      from by rw [h]; rfl]
    rfl
  · intro st args h hpre
    unfold cmd_cd
    dsimp only
    rw [show (!(st.fs.pathEx (cdTarget st args) && st.fs.isDir (cdTarget st args))) = false
      from by rw [h]; rfl]
    rw [show (!st.root.isPrefixOf (cdTarget st args)) = true from by rw [hpre]; rfl]
    rfl

/-- Witness for C3: the invariant at a freshly constructed session, and a
failing `cd` (missing target) leaving the concrete state `st0` unchanged. -/
theorem c3_cwd_invariant_witness :
    st0.root <+: st0.cwd ∧
    cmd_cd st0 ["nope"] = .ok st0 [errLine "no such directory"] :=
  ⟨c3_cwd_invariant.1 st0 (Reachable.init ["sb"] fs0),
    c3_cwd_invariant.2.2.1 st0 ["nope"] (by decide)⟩

/-- Counterexample to C4 as stated: `execute("")` tokenizes to an empty
token list, but `execute` does not return quietly - the unpacking
`cmd, *args = parts` sits outside the `try` (src/main.py line 140) and its
`ValueError` propagates out of `execute` as an unhandled fault. -/
theorem c4_counterexample :
    shlexSplit "" = Except.ok ([] : List String) ∧
    execute st0 confirmYes "" =
      .fault st0 [] "not enough values to unpack (expected at least 1, got 0)" ∧
    execute st0 confirmYes "" ≠ .ok st0 [] := by decide

/-- C4 amended: on every line whose tokenization succeeds with an empty
token list, `execute` produces no output and invokes no handler, but it
does not return normally: it propagates an uncaught unpacking fault, with
the session state unchanged. -/
theorem c4_empty_line_fault (st : State) (confirm : List String → Bool) (line : String)
    (hsp : shlexSplit line = .ok []) :
    execute st confirm line =
      .fault st [] "not enough values to unpack (expected at least 1, got 0)" :=
  execute_empty_tokens hsp

/-- Witness for the amended C4 at the empty input line. -/
theorem c4_empty_line_fault_witness :
    shlexSplit "" = Except.ok ([] : List String) ∧
    execute st9 confirmYes "" =
      .fault st9 [] "not enough values to unpack (expected at least 1, got 0)" :=
  ⟨by decide, c4_empty_line_fault st9 confirmYes "" (by decide)⟩

/-- C5: a line that fails tokenization is reported as a single `parse error`
line, with the state unchanged and no handler invoked; and the quote-aware
split is applied to well-quoted lines, so `execute('echo "a b" c')` prints
exactly `a b c`. -/
theorem c5_parse_errors :
    (∀ (st : State) (confirm : List String → Bool) (line e : String),
      shlexSplit line = .error e →
      execute st confirm line = .ok st [errLine ("parse error: " ++ e)]) ∧
    (∀ (st : State) (confirm : List String → Bool),
      execute st confirm "echo \"a b\" c" = .ok st [outLine "a b c"]) := by
  constructor
  · intro st confirm line e hsp
    exact execute_parse_err hsp
  · intro st confirm
    rfl

/-- Witness for C5 at the unterminated-quote input `echo 'unterminated`. -/
theorem c5_parse_errors_witness :
    shlexSplit ("echo " ++ sq ++ "unterminated") = .error "No closing quotation" ∧
    execute st0 confirmYes ("echo " ++ sq ++ "unterminated") =
      .ok st0 [errLine "parse error: No closing quotation"] ∧
    execute st0 confirmYes "echo \"a b\" c" = .ok st0 [outLine "a b c"] :=
  ⟨by decide,
    c5_parse_errors.1 st0 confirmYes ("echo " ++ sq ++ "unterminated")
      "No closing quotation" (by decide),
    c5_parse_errors.2 st0 confirmYes⟩

/-- C6: a first token that is no registered command name (lookup is an
exact, case-sensitive dictionary hit) yields exactly one error line naming
that token, with no crash and the state unchanged. -/
theorem c6_unknown_command (st : State) (confirm : List String → Bool)
    (line cmd : String) (args : List String)
    (hsp : shlexSplit line = .ok (cmd :: args)) (hlk : lookupCmd cmd = none) :
    execute st confirm line =
      .ok st [errLine ("unknown command: " ++ cmd ++ ". Try " ++ sq ++ "help" ++ sq ++ ".")] :=
  execute_unknown hsp hlk

/-- Witness for C6 at `execute("frobnicate")` (and the case-sensitive miss
`LS`). -/
theorem c6_unknown_command_witness :
    shlexSplit "frobnicate" = .ok ["frobnicate"] ∧ lookupCmd "frobnicate" = none ∧
    lookupCmd "LS" = none ∧ lookupCmd "ls" = some Cmd.ls ∧
    execute st0 confirmYes "frobnicate" =
      .ok st0 [errLine ("unknown command: " ++ "frobnicate" ++ ". Try " ++ sq ++ "help" ++ sq ++ ".")] :=
  ⟨by decide, by decide, by decide, by decide,
    c6_unknown_command st0 confirmYes "frobnicate" "frobnicate" [] (by decide) (by decide)⟩

/-- C7: the per-path loops of `rm` and `cat` (and `head`/`tail`) isolate
failures per item: a missing path (or a directory given to `rm` without
`-r`) contributes exactly one error line and the loop then processes the
remaining arguments exactly as it would have from the same state - one
failing item never aborts the invocation. -/
theorem c7_per_item_isolation :
    (∀ (confirm : List String → Bool) (recursive : Bool) (st : State) (x : String)
        (rest : List String), st.fs.pathEx (resolvePath st x) = false →
      rmLoop confirm recursive st (x :: rest) =
        ((rmLoop confirm recursive st rest).1,
          errLine ("not found: " ++ x) :: (rmLoop confirm recursive st rest).2)) ∧
    (∀ (confirm : List String → Bool) (st : State) (x : String) (rest : List String),
      st.fs.pathEx (resolvePath st x) = true → st.fs.isDir (resolvePath st x) = true →
      rmLoop confirm false st (x :: rest) =
        ((rmLoop confirm false st rest).1,
          errLine ("is a directory (use -r): " ++ x) :: (rmLoop confirm false st rest).2)) ∧
    (∀ (st : State) (x : String) (rest : List String),
      (st.fs.pathEx (resolvePath st x) && st.fs.isFile (resolvePath st x)) = false →
      catLoop st (x :: rest) = errLine ("no such file: " ++ x) :: catLoop st rest) ∧
    (∀ (st : State) (n : Int) (tl : Bool) (x : String) (rest : List String),
      (st.fs.pathEx (resolvePath st x) && st.fs.isFile (resolvePath st x)) = false →
      hdLoop st n tl (x :: rest) = errLine ("no such file: " ++ x) :: hdLoop st n tl rest) := by
  refine ⟨?_, ?_, ?_, ?_⟩
  · intro confirm recursive st x rest h
    simp [rmLoop, h]
  · intro confirm st x rest h₁ h₂
    simp [rmLoop, h₁, h₂]
  · intro st x rest h
    simp [catLoop, h]
  · intro st n tl x rest h
    simp [hdLoop, h]

/-- Witness for C7: a missing path among `rm`'s arguments is reported and
the remaining argument is still processed. -/
theorem c7_per_item_isolation_witness :
    st0.fs.pathEx (resolvePath st0 "ghost") = false ∧
    rmLoop confirmYes false st0 ["ghost", "ghost2"] =
      ((rmLoop confirmYes false st0 ["ghost2"]).1,
        errLine ("not found: " ++ "ghost") :: (rmLoop confirmYes false st0 ["ghost2"]).2) :=
  ⟨by decide, c7_per_item_isolation.1 confirmYes false st0 "ghost" ["ghost2"] (by decide)⟩

theorem count_eq_one_of_mem_nodup {α : Type} [BEq α] [LawfulBEq α] {a : α} {l : List α}
    (hnd : l.Nodup) (h : a ∈ l) : l.count a = 1 := by
  induction l with
  | nil => cases h
  | cons b t ih =>
    rcases List.mem_cons.mp h with rfl | h' 
    · rw [List.count_cons_self]
      have hna : a ∉ t := (List.nodup_cons.mp hnd).1
      rw [List.count_eq_zero.mpr hna]
    · have hne : b ≠ a := by
        rintro rfl
        exact (List.nodup_cons.mp hnd).1 h' 
      rw [List.count_cons_of_ne (fun hh => hne hh.symm), ih (List.nodup_cons.mp hnd).2 h']

theorem nodup_inits {α : Type} : ∀ (l : List α), l.inits.Nodup
  | [] => by simp
  | a :: l => by
    rw [List.inits_cons]
    refine List.Nodup.cons ?_ ((nodup_inits l).map ?_)
    · simp
    · intro x y hxy
      injection hxy

theorem isDir_of_mem {fs : FS} {p : List String} (h : p ∈ fs.dirs) : fs.isDir p = true := by
  unfold FS.isDir
  exact contains_eq_mem.mpr h

theorem mem_of_isDir {fs : FS} {p : List String} (h : fs.isDir p = true) : p ∈ fs.dirs := by
  unfold FS.isDir at h
  exact contains_eq_mem.mp h

theorem pathEx_of_isDir {fs : FS} {p : List String} (h : fs.isDir p = true) :
    fs.pathEx p = true := by
  unfold FS.pathEx
  rw [h]
  rfl

theorem mkdirp_of_isDir {fs : FS} {p : List String} (h : fs.isDir p = true) :
    fs.mkdirp p = .ok fs := by
  unfold FS.mkdirp
  rw [if_pos h]

theorem mkdirp_isDir {fs fs₁ : FS} {p : List String} (h : fs.mkdirp p = .ok fs₁) :
    fs₁.isDir p = true := by
  unfold FS.mkdirp at h
  by_cases hd : fs.isDir p = true
  · rw [if_pos hd] at h
    injection h with h'
    rw [← h']
    exact hd
  · rw [if_neg hd] at h
    by_cases hf : fs.isFile p = true
    · rw [if_pos hf] at h
      exact absurd h (by simp)
    · rw [if_neg hf] at h
      by_cases ha : (List.inits p).any (fun q => fs.isFile q) = true
      · rw [if_pos ha] at h
        exact absurd h (by simp)
      · rw [if_neg ha] at h
        injection h with h'
        rw [← h']
        have hc : fs.dirs.contains p = false := by
          cases hcc : fs.dirs.contains p
          · rfl
          · exact absurd hcc hd
        refine isDir_of_mem (List.mem_append.mpr (Or.inr ?_))
        refine List.mem_filter.mpr ⟨(List.mem_inits p p).mpr ⟨[], by simp⟩, ?_⟩
        rw [hc]
        rfl

theorem mkdirp_nodup {fs fs₁ : FS} {p : List String} (hnd : fs.dirs.Nodup)
    (h : fs.mkdirp p = .ok fs₁) : fs₁.dirs.Nodup := by
  unfold FS.mkdirp at h
  by_cases hd : fs.isDir p = true
  · rw [if_pos hd] at h
    injection h with h'
    rw [← h']
    exact hnd
  · rw [if_neg hd] at h
    by_cases hf : fs.isFile p = true
    · rw [if_pos hf] at h
      exact absurd h (by simp)
    · rw [if_neg hf] at h
      by_cases ha : (List.inits p).any (fun q => fs.isFile q) = true
      · rw [if_pos ha] at h
        exact absurd h (by simp)
      · rw [if_neg ha] at h
        injection h with h'
        rw [← h']
        refine List.Nodup.append hnd ((nodup_inits p).filter _) ?_
        intro q hq hq'
        have := List.of_mem_filter hq'
        rw [show fs.dirs.contains q = true from contains_eq_mem.mpr hq] at this
        exact absurd this (by simp)

/-- C8: `mkdir x` is idempotent: if a first `mkdir x` succeeds with no
error, running it again changes nothing and reports no error, and exactly
one directory entry for `x`'s resolved path exists in the sandbox. -/
theorem c8_mkdir_idempotent (st : State) (x : String) (st₁ : State)
    (hnd : st.fs.dirs.Nodup) (h1 : cmd_mkdir st [x] = .ok st₁ []) :
    cmd_mkdir st₁ [x] = .ok st₁ [] ∧
    resolvePath st x ∈ st₁.fs.dirs ∧
    st₁.fs.dirs.count (resolvePath st x) = 1 := by
  have h1' : mkdirLoop st [x] = .ok st₁ [] := h1
  unfold mkdirLoop at h1'
  cases hm : st.fs.mkdirp (resolvePath st x) with
  | error m =>
    rw [hm] at h1'
    exact absurd h1' (by simp)
  | ok fs₁ =>
    rw [hm] at h1'
    have hst₁ : ({ st with fs := fs₁ } : State) = st₁ := by
      injection h1'
    subst hst₁
    have hmem : fs₁.isDir (resolvePath st x) = true := mkdirp_isDir hm
    refine ⟨?_, mem_of_isDir hmem, ?_⟩
    · show mkdirLoop { st with fs := fs₁ } [x] = .ok { st with fs := fs₁ } []
      unfold mkdirLoop
      rw [show ({ st with fs := fs₁ } : State).fs.mkdirp
          (resolvePath { st with fs := fs₁ } x) = Except.ok fs₁ from mkdirp_of_isDir hmem]
      rfl
    · exact count_eq_one_of_mem_nodup (mkdirp_nodup hnd hm) (mem_of_isDir hmem)

/-- Witness for C8: `mkdir x` twice from the fresh sandbox `st0`. -/
theorem c8_mkdir_idempotent_witness :
    st0.fs.dirs.Nodup ∧ cmd_mkdir st0 ["x"] = .ok st8a [] ∧
    (cmd_mkdir st8a ["x"] = .ok st8a [] ∧ resolvePath st0 "x" ∈ st8a.fs.dirs ∧
      st8a.fs.dirs.count (resolvePath st0 "x") = 1) :=
  ⟨by decide, by decide, c8_mkdir_idempotent st0 "x" st8a (by decide) (by decide)⟩

/-- C9: `cd sub` followed by `cd ..` restores `cwd`, for any directory name
`sub` (a single path component) that exists under the current `cwd`, with
`cwd` a canonical existing directory inside the sandbox. -/
theorem c9_cd_round_trip (st : State) (sub : String)
    (hcwd : Canonical st.cwd) (hconf : st.root <+: st.cwd)
    (hsp : splitPath sub = [sub]) (habs : isAbsolute sub = false) (hgood : GoodComp sub)
    (hdir0 : st.cwd ∈ st.fs.dirs) (hdir1 : st.cwd ++ [sub] ∈ st.fs.dirs) :
    cmd_cd st [sub] = .ok { st with cwd := st.cwd ++ [sub] } [] ∧
    cmd_cd { st with cwd := st.cwd ++ [sub] } [".."] = .ok st [] := by
  have hpre1 : st.root.isPrefixOf (st.cwd ++ [sub]) = true := by
    obtain ⟨t, ht⟩ := hconf
    exact isPrefixOf_eq.mpr ⟨t ++ [sub], by rw [← List.append_assoc, ht]⟩
  have hpre0 : st.root.isPrefixOf st.cwd = true := isPrefixOf_eq.mpr hconf
  have hd1 : st.fs.isDir (st.cwd ++ [sub]) = true := isDir_of_mem hdir1
  have hd0 : st.fs.isDir st.cwd = true := isDir_of_mem hdir0
  have hci1 : canonInput st sub = st.cwd ++ [sub] := by
    unfold canonInput
    rw [hsp]
    simp only [habs, Bool.false_eq_true, if_false]
    exact normalize_canonical_append st.cwd [sub] hcwd.flat
      (by intro c hc; rcases List.mem_singleton.mp hc with rfl
          exact ⟨hgood.2.1, hgood.2.2⟩)
  have hres1 : resolvePath st sub = st.cwd ++ [sub] := by
    unfold resolvePath
    simp [hgood.1, hci1, hpre1]
  have hstep1 : cmd_cd st [sub] = .ok { st with cwd := st.cwd ++ [sub] } [] := by
    unfold cmd_cd cdTarget
    simp [hres1, pathEx_of_isDir hd1, hd1, hpre1]
  refine ⟨hstep1, ?_⟩
  have hci2 : canonInput { st with cwd := st.cwd ++ [sub] } ".." = st.cwd := by
    unfold canonInput
    rw [show splitPath ".." = [".."] from rfl]
    simp only [show isAbsolute ".." = false from rfl, Bool.false_eq_true, if_false]
    show normalize (st.cwd ++ [sub] ++ [".."]) = st.cwd
    unfold normalize
    rw [normAux_append (st.cwd ++ [sub]) [".."] [],
      normAux_flat (st.cwd ++ [sub]) [] (by
        intro c hc
        rcases List.mem_append.mp hc with h | h
        · exact hcwd.flat c h
        · rcases List.mem_singleton.mp h with rfl
          exact ⟨hgood.2.1, hgood.2.2⟩),
      show ∀ acc : List String, normAux acc [".."] = acc.dropLast from fun acc => rfl]
    simp [List.dropLast_concat]
  have hres2 : resolvePath { st with cwd := st.cwd ++ [sub] } ".." = st.cwd := by
    unfold resolvePath
    simp [show (".." : String) ≠ "" from by decide, hci2, hpre0]
  have hstep2 : cmd_cd { st with cwd := st.cwd ++ [sub] } [".."] =
      .ok { st with cwd := st.cwd } [] := by
    unfold cmd_cd cdTarget
    simp [hres2, pathEx_of_isDir hd0, hd0, hpre0]
  rw [hstep2]

/-- Witness for C9 in the concrete session `st9` with subdirectory `d`. -/
theorem c9_cd_round_trip_witness :
    Canonical st9.cwd ∧ st9.root <+: st9.cwd ∧ splitPath "d" = ["d"] ∧
    isAbsolute "d" = false ∧ GoodComp "d" ∧ st9.cwd ∈ st9.fs.dirs ∧
    st9.cwd ++ ["d"] ∈ st9.fs.dirs ∧
    (cmd_cd st9 ["d"] = .ok { st9 with cwd := st9.cwd ++ ["d"] } [] ∧
      cmd_cd { st9 with cwd := st9.cwd ++ ["d"] } [".."] = .ok st9 []) :=
  ⟨by decide, by decide, by decide, by decide, by decide, by decide, by decide,
    c9_cd_round_trip st9 "d" (by decide) (by decide) (by decide) (by decide) (by decide)
      (by decide) (by decide)⟩

theorem lsParseAux_concat (acc : Bool × Option String) (l : List String) (x : String)
    (hx : x ≠ "-a") : lsParseAux acc (l ++ [x]) = ((lsParseAux acc l).1, some x) := by
  induction l generalizing acc with
  | nil => simp [lsParseAux, hx]
  | cons y ys ih =>
    by_cases hy : y = "-a" <;> simp [lsParseAux, hy, ih]

/-- C10: when `ls` receives more than one non-flag argument it silently
keeps only the last one as the target and ignores the earlier ones without
reporting anything: the invocation behaves exactly as if only the last
path argument had been given. -/
theorem c10_ls_last_arg (st : State) (pre : List String) (a b : String)
    (ha : a ≠ "-a") (hb : b ≠ "-a") :
    cmd_ls st (pre ++ [a, b]) = cmd_ls st (pre ++ [b]) := by
  have key : lsParseAux (false, none) (pre ++ [a, b]) =
      lsParseAux (false, none) (pre ++ [b]) := by
    rw [show pre ++ [a, b] = (pre ++ [a]) ++ [b] from by simp,
      lsParseAux_concat _ _ _ hb, lsParseAux_concat _ _ _ ha,
      lsParseAux_concat _ _ _ hb]
  unfold cmd_ls
  rw [key]

/-- Witness for C10: `ls a b` behaves exactly as `ls b` in the concrete
session `st10` (which has subdirectories `a` and `b`). -/
theorem c10_ls_last_arg_witness :
    cmd_ls st10 ["a", "b"] = cmd_ls st10 ["b"] :=
  c10_ls_last_arg st10 [] "a" "b" (by decide) (by decide)

end PyTerm
